import Mathlib

/-!
Shallow embedding of the scanner in `src/lexer.rs` of the lox-rs repository,
together with proofs of the specification claims about it.

The Rust scanner owns a `Vec<char>` buffer and mutable cursor state; here the
state is the explicit `Scanner` record threaded through each operation.  The
two `while` loops (`scan_tokens` and the line-comment loop inside
`scan_single_token`) are modelled as fuel-indexed recursions whose fuel is the
number of unread characters; since every iteration consumes at least one
character this fuel is exactly enough, and `scanLoop_exhausts` below proves
that the loop indeed runs until the input is exhausted, as the Rust loop does.
-/

namespace LoxRs

/-- `TokenType` from src/lexer.rs (all variants, including the ones the
scanner does not yet produce). -/
inductive TokenType where
  | LeftParen
  | RightParen
  | LeftBrace
  | RightBrace
  | LeftBracket
  | RightBracket
  | Comma
  | Dot
  | Minus
  | Plus
  | Semicolon
  | Slash
  | Star
  | Bang
  | BangEqual
  | Equal
  | EqualEqual
  | Greater
  | GreaterEqual
  | Less
  | LessEqual
  | Identifier
  | String
  | Number
  | And
  | Class
  | Else
  | False
  | Fun
  | For
  | If
  | Nil
  | Or
  | Print
  | Return
  | Super
  | This
  | True
  | Var
  | While
  | Lambda
  | Eof
  deriving DecidableEq

/-- `Literal` from src/lexer.rs.  The numeric payload is Rust's `f64`. -/
inductive Literal where
  | Identifier (s : String)
  | Str (s : String)
  | Num (x : Float)

/-- `Token` from src/lexer.rs. -/
structure Token where
  token_type : TokenType
  lexeme : String
  literal : Option Literal
  line : Nat

/-- `Error` from src/utils.rs (`report` is I/O and is not modelled). -/
structure Error where
  message : String
  line : Nat
  deriving DecidableEq

/-- `Token::eof` from src/lexer.rs. -/
def Token.eof (line : Nat) : Token :=
  { token_type := TokenType.Eof, lexeme := "", literal := none, line := line }

/-- The `Scanner` struct from src/lexer.rs. -/
structure Scanner where
  source : List Char
  tokens : List Token
  errors : List Error
  current_line : Nat
  lexeme_start_idx : Nat
  current_idx : Nat

/-- `Scanner::new`. -/
def Scanner.new : Scanner :=
  { source := [], tokens := [], errors := [], current_line := 1,
    lexeme_start_idx := 0, current_idx := 0 }

/-- `Scanner::exhausted_chars`: `self.current_idx >= self.source.len()`. -/
def Scanner.exhausted_chars (s : Scanner) : Bool :=
  decide (s.source.length ≤ s.current_idx)

/-- `Scanner::peek`: the character at the cursor, or `'\0'` at end of input. -/
def Scanner.peek (s : Scanner) : Char :=
  if s.exhausted_chars then Char.ofNat 0 else s.source.getD s.current_idx (Char.ofNat 0)

/-- `Scanner::advance`: consume and return one character (`'\0'` at end of
input, cursor unchanged there).  Rust mutates `self`; here the new state is
returned alongside the character. -/
def Scanner.advance (s : Scanner) : Char × Scanner :=
  if s.exhausted_chars then (Char.ofNat 0, s)
  else (s.source.getD s.current_idx (Char.ofNat 0),
        { s with current_idx := s.current_idx + 1 })

/-- `Scanner::match_advance`: consume the next character only if it equals
`expected_next`; at end of input report `false` (the short-circuit `||` in
Rust guards the buffer read, modelled here by the guarded `getD`). -/
def Scanner.match_advance (s : Scanner) (expected_next : Char) : Bool × Scanner :=
  if s.exhausted_chars ∨ s.source.getD s.current_idx (Char.ofNat 0) ≠ expected_next then
    (false, s)
  else
    (true, { s with current_idx := s.current_idx + 1 })

/-- The line-comment loop inside `Scanner::scan_single_token`:
`while self.peek() != '\n' && !self.exhausted_chars() { self.advance(); }`.
Fuel is the number of unread characters at the call site, which bounds the
iteration count. -/
def skipComment : Nat → Scanner → Scanner
  | 0, s => s
  | fuel + 1, s =>
      if s.peek ≠ '\n' ∧ ¬ s.exhausted_chars then skipComment fuel (s.advance).2 else s

/-- Pushing one token in `Scanner::scan_single_token`: the lexeme is the
re-slice `self.source[self.lexeme_start_idx..self.current_idx]`. -/
def Scanner.push_token (s : Scanner) (tt : TokenType) : Scanner :=
  { s with tokens := s.tokens ++
      [{ token_type := tt,
         lexeme := ((s.source.drop s.lexeme_start_idx).take
                      (s.current_idx - s.lexeme_start_idx)).asString,
         literal := none,
         line := s.current_line }] }

/-- The first ten arms of the `match` in `Scanner::scan_single_token`: fixed
single-character tokens.  Note the source maps `'{'` and `'}'` to
`LeftBracket` and `RightBracket`. -/
def simpleTokenType (c : Char) : Option TokenType :=
  if c = '(' then some TokenType.LeftParen
  else if c = ')' then some TokenType.RightParen
  else if c = '{' then some TokenType.LeftBracket
  else if c = '}' then some TokenType.RightBracket
  else if c = ',' then some TokenType.Comma
  else if c = '.' then some TokenType.Dot
  else if c = '-' then some TokenType.Minus
  else if c = '+' then some TokenType.Plus
  else if c = ';' then some TokenType.Semicolon
  else if c = '*' then some TokenType.Star
  else none

/-- `Scanner::scan_single_token`.  The Rust code first computes an
`Option<TokenType>` (with `match_advance`/comment consumption as side
effects), pushes a token when it is `Some`, and otherwise dispatches the same
character again over the whitespace/newline/comment/error arms. -/
def Scanner.scan_single_token (s0 : Scanner) : Scanner :=
  let a := s0.advance
  let token := a.1
  let r : Option TokenType × Scanner :=
    match simpleTokenType token with
    | some tt => (some tt, a.2)
    | none =>
      if token = '!' then
        let m := a.2.match_advance '='
        (some (if m.1 then TokenType.BangEqual else TokenType.Bang), m.2)
      else if token = '=' then
        let m := a.2.match_advance '='
        (some (if m.1 then TokenType.EqualEqual else TokenType.Equal), m.2)
      else if token = '<' then
        let m := a.2.match_advance '='
        (some (if m.1 then TokenType.LessEqual else TokenType.Less), m.2)
      else if token = '>' then
        let m := a.2.match_advance '='
        (some (if m.1 then TokenType.GreaterEqual else TokenType.Greater), m.2)
      else if token = '/' then
        let m := a.2.match_advance '/'
        if m.1 then (none, skipComment (m.2.source.length - m.2.current_idx) m.2)
        else (some TokenType.Slash, m.2)
      else (none, a.2)
  match r with
  | (some tt, s) => s.push_token tt
  | (none, s) =>
      if token = ' ' then s
      else if token = '\r' then s
      else if token = '\t' then s
      else if token = '\n' then { s with current_line := s.current_line + 1 }
      else if token = '/' then s
      else { s with errors := s.errors ++
               [{ message := "Unexpected character", line := s.current_line }] }

/-- The main loop of `Scanner::scan_tokens`:
`while !self.exhausted_chars() { self.lexeme_start_idx = self.current_idx; self.scan_single_token(); }`.
Fuel is the number of unread characters, which bounds the iteration count
because every iteration consumes at least one character. -/
def scanLoop : Nat → Scanner → Scanner
  | 0, s => s
  | fuel + 1, s =>
      if s.exhausted_chars then s
      else scanLoop fuel
        (Scanner.scan_single_token { s with lexeme_start_idx := s.current_idx })

/-- `Scanner::scan_tokens`: install the source, run the loop to exhaustion,
then append the `Eof` token stamped with the final line counter. -/
def Scanner.scan_tokens (s0 : Scanner) (source : String) : Scanner :=
  let s1 := { s0 with source := source.data }
  let s2 := scanLoop (s1.source.length - s1.current_idx) s1
  { s2 with tokens := s2.tokens ++ [Token.eof s2.current_line] }

/-- `Scanner::has_errors`: `self.errors.len() > 0`. -/
def Scanner.has_errors (s : Scanner) : Bool :=
  decide (0 < s.errors.length)

/-- `get_tokens` from src/lexer.rs (the `report_errors` diagnostic printing is
I/O and is not modelled). -/
def get_tokens (source : String) : Except (List Error) (List Token) :=
  let scanner := Scanner.new.scan_tokens source
  if scanner.has_errors then Except.error scanner.errors
  else Except.ok scanner.tokens

/-- Statement helper, mirroring the `!` `=` `<` `>` arms of
`scan_single_token`: the two-character token emitted when the lookahead `=`
matches. -/
def twoCharTokenType (c : Char) : Option TokenType :=
  if c = '!' then some TokenType.BangEqual
  else if c = '=' then some TokenType.EqualEqual
  else if c = '<' then some TokenType.LessEqual
  else if c = '>' then some TokenType.GreaterEqual
  else none

/-- Statement helper, mirroring the `!` `=` `<` `>` arms of
`scan_single_token`: the one-character token emitted when the lookahead `=`
does not match. -/
def oneCharTokenType (c : Char) : Option TokenType :=
  if c = '!' then some TokenType.Bang
  else if c = '=' then some TokenType.Equal
  else if c = '<' then some TokenType.Less
  else if c = '>' then some TokenType.Greater
  else none

/-- A well-formed non-EndOfInput token of `source`: its lexeme is a re-slice
of the source at offsets `i < j ≤ length`, and its line is 1 plus the number
of newline characters strictly before position `i`. -/
def TokOK (source : List Char) (t : Token) : Prop :=
  t.token_type ≠ TokenType.Eof ∧
  ∃ i j, i < j ∧ j ≤ source.length ∧
    t.lexeme = ((source.drop i).take (j - i)).asString ∧
    t.line = 1 + (source.take i).count '\n'

/-- Everything one iteration of the scan loop guarantees when the input is
not exhausted and the lexeme start has just been set to the cursor: the
source is unchanged, tokens and errors only grow at the end (by at most one
each), the cursor advances by at least one and stays in bounds, the line
counter never decreases and changes exactly by one on a consumed newline,
the newline-count line invariant is preserved, every new token is a non-Eof
token stamped with the current line whose lexeme re-slices the source at the
consumed offsets, and every new error is an "Unexpected character" at the
current line. -/
def StepSpec (s : Scanner) : Prop :=
  ∃ nts nes,
    (Scanner.scan_single_token s).source = s.source ∧
    (Scanner.scan_single_token s).tokens = s.tokens ++ nts ∧
    (Scanner.scan_single_token s).errors = s.errors ++ nes ∧
    s.current_idx < (Scanner.scan_single_token s).current_idx ∧
    (Scanner.scan_single_token s).current_idx ≤ s.source.length ∧
    s.current_line ≤ (Scanner.scan_single_token s).current_line ∧
    ((Scanner.scan_single_token s).current_line = s.current_line ∧
        s.source.getD s.current_idx (Char.ofNat 0) ≠ '\n' ∨
      (Scanner.scan_single_token s).current_line = s.current_line + 1 ∧
        s.source.getD s.current_idx (Char.ofNat 0) = '\n') ∧
    (s.current_line = 1 + (s.source.take s.current_idx).count '\n' →
      (Scanner.scan_single_token s).current_line =
        1 + (s.source.take (Scanner.scan_single_token s).current_idx).count '\n') ∧
    (∀ t ∈ nts, t.token_type ≠ TokenType.Eof ∧ t.line = s.current_line ∧
      t.lexeme = ((s.source.drop s.current_idx).take
        ((Scanner.scan_single_token s).current_idx - s.current_idx)).asString) ∧
    (∀ e ∈ nes, e.message = "Unexpected character" ∧ e.line = s.current_line) ∧
    nts.length ≤ 1 ∧ nes.length ≤ 1

/-! ## List helper lemmas -/

lemma take_one_drop (l : List Char) (i : Nat) (h : i < l.length) :
    (l.drop i).take 1 = [l.getD i (Char.ofNat 0)] := by
  rw [List.drop_eq_getElem_cons h, List.getD_eq_getElem l _ h]
  rfl

lemma take_two_drop (l : List Char) (i : Nat) (h : i + 1 < l.length) :
    (l.drop i).take 2 = [l.getD i (Char.ofNat 0), l.getD (i + 1) (Char.ofNat 0)] := by
  have h0 : i < l.length := by omega
  rw [List.drop_eq_getElem_cons h0, List.getD_eq_getElem l _ h0,
    List.take_succ_cons, take_one_drop l (i + 1) h]

lemma count_take_succ (l : List Char) (i : Nat) (a : Char) (h : i < l.length) :
    (l.take (i + 1)).count a =
      (l.take i).count a + if l.getD i (Char.ofNat 0) = a then 1 else 0 := by
  simp only [List.take_succ, List.getElem?_eq_getElem h, Option.toList_some,
    List.count_append, List.count_singleton', List.getD_eq_getElem l _ h]

lemma count_take_eq (l : List Char) (a : Char) {i j : Nat} (hij : i ≤ j) (hj : j ≤ l.length)
    (h : ∀ k, i ≤ k → k < j → l.getD k (Char.ofNat 0) ≠ a) :
    (l.take j).count a = (l.take i).count a := by
  induction j, hij using Nat.le_induction with
  | base => rfl
  | succ n hn ih =>
    have hlen : n < l.length := by omega
    rw [count_take_succ l n a hlen, if_neg (h n hn (by omega))]
    exact ih (by omega) (fun k hk1 hk2 => h k hk1 (by omega))

lemma pairwise_of_length_le_one {α : Type} {R : α → α → Prop} {l : List α}
    (h : l.length ≤ 1) : l.Pairwise R := by
  match l with
  | [] => exact List.Pairwise.nil
  | [a] => exact List.pairwise_singleton R a
  | a :: b :: t => simp at h

lemma asString_ne_empty {l : List Char} (h : l ≠ []) : l.asString ≠ "" := by
  intro hs
  apply h
  calc l = l.asString.data := rfl
    _ = ("" : String).data := by rw [hs]
    _ = [] := rfl

/-! ## Properties of the comment-skipping loop -/

lemma skipComment_preserves (fuel : Nat) (s : Scanner) :
    (skipComment fuel s).source = s.source ∧
    (skipComment fuel s).tokens = s.tokens ∧
    (skipComment fuel s).errors = s.errors ∧
    (skipComment fuel s).current_line = s.current_line ∧
    (skipComment fuel s).lexeme_start_idx = s.lexeme_start_idx ∧
    s.current_idx ≤ (skipComment fuel s).current_idx ∧
    (s.current_idx ≤ s.source.length →
      (skipComment fuel s).current_idx ≤ s.source.length) := by
  induction fuel generalizing s with
  | zero => simp [skipComment]
  | succ n ih =>
    rw [skipComment]
    split
    · rename_i h
      have hidx : s.current_idx < s.source.length := by
        have := h.2
        simp [Scanner.exhausted_chars] at this
        omega
      have ha : (s.advance).2 = { s with current_idx := s.current_idx + 1 } := by
        simp [Scanner.advance, h.2]
      rw [ha]
      obtain ⟨h1, h2, h3, h4, h5, h6, h7⟩ := ih { s with current_idx := s.current_idx + 1 }
      refine ⟨h1, h2, h3, h4, h5, by simp at h6 ⊢; omega, fun _ => ?_⟩
      have := h7 (by simp; omega)
      simpa using this
    · exact ⟨rfl, rfl, rfl, rfl, rfl, le_refl _, fun h => h⟩

lemma skipComment_exact (fuel : Nat) (s : Scanner)
    (hfuel : s.source.length - s.current_idx ≤ fuel)
    (hidx : s.current_idx ≤ s.source.length) :
    ((skipComment fuel s).current_idx = s.source.length ∨
      ((skipComment fuel s).current_idx < s.source.length ∧
        s.source.getD (skipComment fuel s).current_idx (Char.ofNat 0) = '\n')) ∧
    ∀ k, s.current_idx ≤ k → k < (skipComment fuel s).current_idx →
      s.source.getD k (Char.ofNat 0) ≠ '\n' := by
  induction fuel generalizing s with
  | zero =>
    have heq : s.current_idx = s.source.length := by omega
    constructor
    · left; simp [skipComment, heq]
    · intro k hk1 hk2; simp [skipComment] at hk2; omega
  | succ n ih =>
    rw [skipComment]
    split
    · rename_i h
      have hlt : s.current_idx < s.source.length := by
        have := h.2
        simp [Scanner.exhausted_chars] at this
        omega
      have hpeek : s.peek = s.source.getD s.current_idx (Char.ofNat 0) := by
        simp [Scanner.peek, h.2]
      have hc : s.source.getD s.current_idx (Char.ofNat 0) ≠ '\n' := by
        rw [← hpeek]; exact h.1
      have ha : (s.advance).2 = { s with current_idx := s.current_idx + 1 } := by
        simp [Scanner.advance, h.2]
      rw [ha]
      obtain ⟨ih1, ih2⟩ := ih { s with current_idx := s.current_idx + 1 }
        (by simp; omega) (by simp; omega)
      constructor
      · simpa using ih1
      · intro k hk1 hk2
        rcases Nat.eq_or_lt_of_le hk1 with heq | hlt2
        · rw [← heq]; exact hc
        · exact ih2 k (by simpa using hlt2) (by simpa using hk2)
    · rename_i h
      by_cases hexh : s.exhausted_chars = true
      · have : s.source.length ≤ s.current_idx := by
          simpa [Scanner.exhausted_chars] using hexh
        exact ⟨Or.inl (by omega), fun k hk1 hk2 => by omega⟩
      · have hlt : s.current_idx < s.source.length := by
          simp [Scanner.exhausted_chars] at hexh
          omega
        have hpeek : s.peek = s.source.getD s.current_idx (Char.ofNat 0) := by
          simp [Scanner.peek, hexh]
        have hnl : s.source.getD s.current_idx (Char.ofNat 0) = '\n' := by
          rw [← hpeek]
          by_contra hne
          exact h ⟨hne, by simp [hexh]⟩
        exact ⟨Or.inr ⟨hlt, hnl⟩, fun k hk1 hk2 => by omega⟩

/-! ## One-step normal forms of `scan_single_token` -/

lemma advance_not_exhausted (s : Scanner) (h : s.exhausted_chars = false) :
    s.advance =
      (s.source.getD s.current_idx (Char.ofNat 0),
        { s with current_idx := s.current_idx + 1 }) := by
  simp [Scanner.advance, h]

lemma match_advance_yes (s : Scanner) (e : Char)
    (hlt : s.current_idx < s.source.length)
    (heq : s.source.getD s.current_idx (Char.ofNat 0) = e) :
    s.match_advance e = (true, { s with current_idx := s.current_idx + 1 }) := by
  have hcond : ¬(s.exhausted_chars = true ∨
      s.source.getD s.current_idx (Char.ofNat 0) ≠ e) := by
    push_neg
    exact ⟨by simp [Scanner.exhausted_chars]; omega, heq⟩
  unfold Scanner.match_advance
  rw [if_neg hcond]

lemma match_advance_no (s : Scanner) (e : Char)
    (h : s.source.length ≤ s.current_idx ∨
      s.source.getD s.current_idx (Char.ofNat 0) ≠ e) :
    s.match_advance e = (false, s) := by
  have hcond : s.exhausted_chars = true ∨
      s.source.getD s.current_idx (Char.ofNat 0) ≠ e := by
    rcases h with h1 | h2
    · exact Or.inl (by simp [Scanner.exhausted_chars]; omega)
    · exact Or.inr h2
  unfold Scanner.match_advance
  rw [if_pos hcond]

lemma scan_single_simple (s : Scanner) (tt : TokenType)
    (h : s.exhausted_chars = false)
    (hls : s.lexeme_start_idx = s.current_idx)
    (hc : simpleTokenType (s.source.getD s.current_idx (Char.ofNat 0)) = some tt) :
    Scanner.scan_single_token s =
      { s with current_idx := s.current_idx + 1,
               tokens := s.tokens ++
                 [{ token_type := tt,
                    lexeme := ((s.source.drop s.current_idx).take 1).asString,
                    literal := none,
                    line := s.current_line }] } := by
  unfold Scanner.scan_single_token
  rw [advance_not_exhausted s h]
  simp only [hc]
  simp [Scanner.push_token, hls]

lemma scan_single_op2 (s : Scanner) (tt : TokenType)
    (h : s.exhausted_chars = false)
    (hls : s.lexeme_start_idx = s.current_idx)
    (hc : twoCharTokenType (s.source.getD s.current_idx (Char.ofNat 0)) = some tt)
    (hlt : s.current_idx + 1 < s.source.length)
    (heq : s.source.getD (s.current_idx + 1) (Char.ofNat 0) = '=') :
    Scanner.scan_single_token s =
      { s with current_idx := s.current_idx + 2,
               tokens := s.tokens ++
                 [{ token_type := tt,
                    lexeme := ((s.source.drop s.current_idx).take 2).asString,
                    literal := none,
                    line := s.current_line }] } := by
  have hm : ({ s with current_idx := s.current_idx + 1 } : Scanner).match_advance '=' =
      (true, { s with current_idx := s.current_idx + 1 + 1 }) :=
    match_advance_yes _ '=' (by simpa using hlt) (by simpa using heq)
  unfold Scanner.scan_single_token
  rw [advance_not_exhausted s h]
  unfold twoCharTokenType at hc
  split at hc
  · rename_i hchar
    cases hc
    rw [hchar]
    rw [hls] at hm
    simp [simpleTokenType, hm, Scanner.push_token, hls, Nat.add_sub_cancel_left]
    omega
  · split at hc
    · rename_i hchar
      cases hc
      rw [hchar]
      rw [hls] at hm
      simp [simpleTokenType, hm, Scanner.push_token, hls, Nat.add_sub_cancel_left]
      omega
    · split at hc
      · rename_i hchar
        cases hc
        rw [hchar]
        rw [hls] at hm
        simp [simpleTokenType, hm, Scanner.push_token, hls, Nat.add_sub_cancel_left]
        omega
      · split at hc
        · rename_i hchar
          cases hc
          rw [hchar]
          rw [hls] at hm
          simp [simpleTokenType, hm, Scanner.push_token, hls, Nat.add_sub_cancel_left]
          omega
        · exact absurd hc (by simp)

lemma scan_single_op1 (s : Scanner) (tt : TokenType)
    (h : s.exhausted_chars = false)
    (hls : s.lexeme_start_idx = s.current_idx)
    (hc : oneCharTokenType (s.source.getD s.current_idx (Char.ofNat 0)) = some tt)
    (hno : s.source.length ≤ s.current_idx + 1 ∨
      s.source.getD (s.current_idx + 1) (Char.ofNat 0) ≠ '=') :
    Scanner.scan_single_token s =
      { s with current_idx := s.current_idx + 1,
               tokens := s.tokens ++
                 [{ token_type := tt,
                    lexeme := ((s.source.drop s.current_idx).take 1).asString,
                    literal := none,
                    line := s.current_line }] } := by
  have hm : ({ s with current_idx := s.current_idx + 1 } : Scanner).match_advance '=' =
      (false, { s with current_idx := s.current_idx + 1 }) :=
    match_advance_no _ '=' (by simpa using hno)
  unfold Scanner.scan_single_token
  rw [advance_not_exhausted s h]
  unfold oneCharTokenType at hc
  split at hc
  · rename_i hchar
    cases hc
    rw [hchar]
    rw [hls] at hm
    simp [simpleTokenType, hm, Scanner.push_token, hls]
  · split at hc
    · rename_i hchar
      cases hc
      rw [hchar]
      rw [hls] at hm
      simp [simpleTokenType, hm, Scanner.push_token, hls]
    · split at hc
      · rename_i hchar
        cases hc
        rw [hchar]
        rw [hls] at hm
        simp [simpleTokenType, hm, Scanner.push_token, hls]
      · split at hc
        · rename_i hchar
          cases hc
          rw [hchar]
          rw [hls] at hm
          simp [simpleTokenType, hm, Scanner.push_token, hls]
        · exact absurd hc (by simp)

lemma scan_single_comment (s : Scanner)
    (h : s.exhausted_chars = false)
    (hchar : s.source.getD s.current_idx (Char.ofNat 0) = '/')
    (hlt : s.current_idx + 1 < s.source.length)
    (heq : s.source.getD (s.current_idx + 1) (Char.ofNat 0) = '/') :
    Scanner.scan_single_token s =
      skipComment (s.source.length - (s.current_idx + 1 + 1))
        { s with current_idx := s.current_idx + 1 + 1 } := by
  have hm : ({ s with current_idx := s.current_idx + 1 } : Scanner).match_advance '/' =
      (true, { s with current_idx := s.current_idx + 1 + 1 }) :=
    match_advance_yes _ '/' (by simpa using hlt) (by simpa using heq)
  unfold Scanner.scan_single_token
  rw [advance_not_exhausted s h]
  rw [hchar]
  simp [simpleTokenType, hm]

lemma scan_single_slash (s : Scanner)
    (h : s.exhausted_chars = false)
    (hls : s.lexeme_start_idx = s.current_idx)
    (hchar : s.source.getD s.current_idx (Char.ofNat 0) = '/')
    (hno : s.source.length ≤ s.current_idx + 1 ∨
      s.source.getD (s.current_idx + 1) (Char.ofNat 0) ≠ '/') :
    Scanner.scan_single_token s =
      { s with current_idx := s.current_idx + 1,
               tokens := s.tokens ++
                 [{ token_type := TokenType.Slash,
                    lexeme := ((s.source.drop s.current_idx).take 1).asString,
                    literal := none,
                    line := s.current_line }] } := by
  have hm : ({ s with current_idx := s.current_idx + 1 } : Scanner).match_advance '/' =
      (false, { s with current_idx := s.current_idx + 1 }) :=
    match_advance_no _ '/' (by simpa using hno)
  unfold Scanner.scan_single_token
  rw [advance_not_exhausted s h]
  rw [hchar]
  rw [hls] at hm
  simp [simpleTokenType, hm, Scanner.push_token, hls]

lemma scan_single_ws (s : Scanner)
    (h : s.exhausted_chars = false)
    (hchar : s.source.getD s.current_idx (Char.ofNat 0) = ' ' ∨
      s.source.getD s.current_idx (Char.ofNat 0) = '\r' ∨
      s.source.getD s.current_idx (Char.ofNat 0) = '\t') :
    Scanner.scan_single_token s = { s with current_idx := s.current_idx + 1 } := by
  unfold Scanner.scan_single_token
  rw [advance_not_exhausted s h]
  rcases hchar with hchar | hchar | hchar <;> rw [hchar] <;> simp [simpleTokenType]

lemma scan_single_newline (s : Scanner)
    (h : s.exhausted_chars = false)
    (hchar : s.source.getD s.current_idx (Char.ofNat 0) = '\n') :
    Scanner.scan_single_token s =
      { s with current_idx := s.current_idx + 1,
               current_line := s.current_line + 1 } := by
  unfold Scanner.scan_single_token
  rw [advance_not_exhausted s h]
  rw [hchar]
  simp [simpleTokenType]

lemma scan_single_error (s : Scanner)
    (h : s.exhausted_chars = false)
    (hsimple : simpleTokenType (s.source.getD s.current_idx (Char.ofNat 0)) = none)
    (hother : s.source.getD s.current_idx (Char.ofNat 0) ∉
      ['!', '=', '<', '>', '/', ' ', '\r', '\t', '\n']) :
    Scanner.scan_single_token s =
      { s with current_idx := s.current_idx + 1,
               errors := s.errors ++
                 [{ message := "Unexpected character", line := s.current_line }] } := by
  simp only [List.mem_cons, List.not_mem_nil, or_false, not_or] at hother
  obtain ⟨h1, h2, h3, h4, h5, h6, h7, h8, h9⟩ := hother
  simp only [List.getD_eq_getElem?_getD] at h1 h2 h3 h4 h5 h6 h7 h8 h9
  unfold Scanner.scan_single_token
  rw [advance_not_exhausted s h]
  simp only [hsimple]
  simp [h1, h2, h3, h4, h5, h6, h7, h8, h9]

/-! ## Assembling the one-step specification -/

lemma simpleTokenType_ne_eof {c : Char} {tt : TokenType}
    (h : simpleTokenType c = some tt) : tt ≠ TokenType.Eof := by
  intro hx
  subst hx
  unfold simpleTokenType at h
  repeat' split at h
  all_goals simp_all

lemma twoCharTokenType_ne_eof {c : Char} {tt : TokenType}
    (h : twoCharTokenType c = some tt) : tt ≠ TokenType.Eof := by
  intro hx
  subst hx
  unfold twoCharTokenType at h
  repeat' split at h
  all_goals simp_all

lemma oneCharTokenType_ne_eof {c : Char} {tt : TokenType}
    (h : oneCharTokenType c = some tt) : tt ≠ TokenType.Eof := by
  intro hx
  subst hx
  unfold oneCharTokenType at h
  repeat' split at h
  all_goals simp_all

lemma oneChar_of_twoChar {c : Char} {tt : TokenType}
    (h : twoCharTokenType c = some tt) : ∃ tt1, oneCharTokenType c = some tt1 := by
  unfold twoCharTokenType at h
  repeat' split at h
  all_goals simp_all [oneCharTokenType]

lemma simple_ne_newline {c : Char} {tt : TokenType}
    (h : simpleTokenType c = some tt) : c ≠ '\n' := by
  intro hx
  subst hx
  simp [simpleTokenType] at h

lemma twoChar_ne_newline {c : Char} {tt : TokenType}
    (h : twoCharTokenType c = some tt) : c ≠ '\n' := by
  intro hx
  subst hx
  simp [twoCharTokenType] at h

lemma StepSpec_of_push (s : Scanner) (tt : TokenType) (n : Nat)
    (hstep : Scanner.scan_single_token s =
      { s with current_idx := s.current_idx + n,
               tokens := s.tokens ++
                 [{ token_type := tt,
                    lexeme := ((s.source.drop s.current_idx).take n).asString,
                    literal := none, line := s.current_line }] })
    (hn : 0 < n)
    (hlen : s.current_idx + n ≤ s.source.length)
    (htt : tt ≠ TokenType.Eof)
    (hnl : ∀ k, s.current_idx ≤ k → k < s.current_idx + n →
      s.source.getD k (Char.ofNat 0) ≠ '\n') :
    StepSpec s := by
  refine ⟨[{ token_type := tt,
             lexeme := ((s.source.drop s.current_idx).take n).asString,
             literal := none, line := s.current_line }], [],
    by rw [hstep], by rw [hstep], by simp [hstep], by rw [hstep]; simp; omega,
    by rw [hstep]; exact hlen, by rw [hstep],
    Or.inl ⟨by rw [hstep], hnl s.current_idx (le_refl _) (by omega)⟩,
    ?_, ?_, by simp, by simp, by simp⟩
  · intro hline
    rw [hstep]
    show s.current_line = _
    rw [count_take_eq s.source '\n' (Nat.le_add_right _ _) hlen hnl]
    exact hline
  · intro t ht
    simp only [List.mem_singleton] at ht
    subst ht
    exact ⟨htt, rfl, by simp [hstep, Nat.add_sub_cancel_left]⟩

lemma StepSpec_of_skip (s : Scanner)
    (hstep : Scanner.scan_single_token s = { s with current_idx := s.current_idx + 1 })
    (hlen : s.current_idx + 1 ≤ s.source.length)
    (hnl : s.source.getD s.current_idx (Char.ofNat 0) ≠ '\n') :
    StepSpec s := by
  have hnl' : ∀ k, s.current_idx ≤ k → k < s.current_idx + 1 →
      s.source.getD k (Char.ofNat 0) ≠ '\n' := by
    intro k hk1 hk2
    have hk : k = s.current_idx := by omega
    subst hk
    exact hnl
  refine ⟨[], [],
    by rw [hstep], by simp [hstep], by simp [hstep], by rw [hstep]; simp,
    by rw [hstep]; exact hlen, by rw [hstep],
    Or.inl ⟨by rw [hstep], hnl⟩,
    ?_, by simp, by simp, by simp, by simp⟩
  intro hline
  rw [hstep]
  show s.current_line = _
  rw [count_take_eq s.source '\n' (Nat.le_add_right _ _) hlen hnl']
  exact hline

lemma StepSpec_newline (s : Scanner)
    (h : s.exhausted_chars = false)
    (hchar : s.source.getD s.current_idx (Char.ofNat 0) = '\n') :
    StepSpec s := by
  have hlt : s.current_idx < s.source.length := by
    simp [Scanner.exhausted_chars] at h
    omega
  have hstep := scan_single_newline s h hchar
  refine ⟨[], [],
    by rw [hstep], by simp [hstep], by simp [hstep], by rw [hstep]; simp,
    by rw [hstep]; show s.current_idx + 1 ≤ _; omega, by rw [hstep]; simp,
    Or.inr ⟨by rw [hstep], hchar⟩,
    ?_, by simp, by simp, by simp, by simp⟩
  intro hline
  rw [hstep]
  show s.current_line + 1 = _
  rw [count_take_succ s.source s.current_idx '\n' hlt, if_pos hchar, hline]
  omega

lemma StepSpec_comment (s : Scanner)
    (h : s.exhausted_chars = false)
    (hchar : s.source.getD s.current_idx (Char.ofNat 0) = '/')
    (hlt2 : s.current_idx + 1 < s.source.length)
    (heq2 : s.source.getD (s.current_idx + 1) (Char.ofNat 0) = '/') :
    StepSpec s := by
  have hstep := scan_single_comment s h hchar hlt2 heq2
  obtain ⟨p1, p2, p3, p4, p5, p6, p7⟩ :=
    skipComment_preserves (s.source.length - (s.current_idx + 1 + 1))
      { s with current_idx := s.current_idx + 1 + 1 }
  obtain ⟨e1, e2⟩ :=
    skipComment_exact (s.source.length - (s.current_idx + 1 + 1))
      { s with current_idx := s.current_idx + 1 + 1 }
      (by simp) (by simp; omega)
  simp only at p1 p2 p3 p4 p5 p6 e1 e2
  have hp7 := p7 (by simp; omega)
  simp only at hp7
  refine ⟨[], [],
    by rw [hstep]; simpa using p1,
    by rw [hstep]; simpa using p2,
    by rw [hstep]; simpa using p3,
    by rw [hstep]; omega,
    by rw [hstep]; simpa using hp7,
    by rw [hstep]; simp [p4],
    Or.inl ⟨by rw [hstep]; simpa using p4, by rw [hchar]; decide⟩,
    ?_, by simp, by simp, by simp, by simp⟩
  intro hline
  rw [hstep]
  have hnn : ∀ k, s.current_idx ≤ k →
      k < (skipComment (s.source.length - (s.current_idx + 1 + 1))
        { s with current_idx := s.current_idx + 1 + 1 }).current_idx →
      s.source.getD k (Char.ofNat 0) ≠ '\n' := by
    intro k hk1 hk2
    rcases (by omega : k = s.current_idx ∨ k = s.current_idx + 1 ∨ s.current_idx + 1 + 1 ≤ k)
      with hk | hk | hk
    · subst hk; rw [hchar]; decide
    · subst hk; rw [heq2]; decide
    · exact e2 k (by simpa using hk) hk2
  rw [p4, count_take_eq s.source '\n' (by omega)
    (by simpa using hp7) hnn]
  exact hline

lemma StepSpec_error (s : Scanner)
    (h : s.exhausted_chars = false)
    (hsimple : simpleTokenType (s.source.getD s.current_idx (Char.ofNat 0)) = none)
    (hother : s.source.getD s.current_idx (Char.ofNat 0) ∉
      ['!', '=', '<', '>', '/', ' ', '\r', '\t', '\n']) :
    StepSpec s := by
  have hlt : s.current_idx < s.source.length := by
    simp [Scanner.exhausted_chars] at h
    omega
  have hnl : s.source.getD s.current_idx (Char.ofNat 0) ≠ '\n' := by
    intro hx
    exact hother (by rw [hx]; simp)
  have hnl' : ∀ k, s.current_idx ≤ k → k < s.current_idx + 1 →
      s.source.getD k (Char.ofNat 0) ≠ '\n' := by
    intro k hk1 hk2
    have hk : k = s.current_idx := by omega
    subst hk
    exact hnl
  have hstep := scan_single_error s h hsimple hother
  refine ⟨[], [{ message := "Unexpected character", line := s.current_line }],
    by rw [hstep], by simp [hstep], by rw [hstep], by rw [hstep]; simp,
    by rw [hstep]; show s.current_idx + 1 ≤ _; omega, by rw [hstep],
    Or.inl ⟨by rw [hstep], hnl⟩,
    ?_, by simp, ?_, by simp, by simp⟩
  · intro hline
    rw [hstep]
    show s.current_line = _
    rw [count_take_eq s.source '\n' (Nat.le_add_right _ _) (by omega) hnl']
    exact hline
  · intro e he
    simp only [List.mem_singleton] at he
    subst he
    exact ⟨rfl, rfl⟩

lemma step_spec (s : Scanner) (h : s.exhausted_chars = false)
    (hls : s.lexeme_start_idx = s.current_idx) : StepSpec s := by
  have hlt : s.current_idx < s.source.length := by
    simp [Scanner.exhausted_chars] at h
    omega
  cases hst : simpleTokenType (s.source.getD s.current_idx (Char.ofNat 0)) with
  | some tt =>
      refine StepSpec_of_push s tt 1 (scan_single_simple s tt h hls hst)
        Nat.one_pos (by omega) (simpleTokenType_ne_eof hst) ?_
      intro k hk1 hk2
      have hk : k = s.current_idx := by omega
      subst hk
      exact simple_ne_newline hst
  | none =>
      cases hst2 : twoCharTokenType (s.source.getD s.current_idx (Char.ofNat 0)) with
      | some tt2 =>
          by_cases hnext : s.current_idx + 1 < s.source.length ∧
              s.source.getD (s.current_idx + 1) (Char.ofNat 0) = '='
          · refine StepSpec_of_push s tt2 2
              (scan_single_op2 s tt2 h hls hst2 hnext.1 hnext.2)
              (by omega) (by omega) (twoCharTokenType_ne_eof hst2) ?_
            intro k hk1 hk2
            rcases (by omega : k = s.current_idx ∨ k = s.current_idx + 1) with hk | hk
            · subst hk; exact twoChar_ne_newline hst2
            · subst hk; rw [hnext.2]; decide
          · obtain ⟨tt1, h1t⟩ := oneChar_of_twoChar hst2
            have hno : s.source.length ≤ s.current_idx + 1 ∨
                s.source.getD (s.current_idx + 1) (Char.ofNat 0) ≠ '=' := by
              by_cases hl2 : s.current_idx + 1 < s.source.length
              · exact Or.inr (fun hx => hnext ⟨hl2, hx⟩)
              · exact Or.inl (by omega)
            refine StepSpec_of_push s tt1 1
              (scan_single_op1 s tt1 h hls h1t hno)
              Nat.one_pos (by omega) (oneCharTokenType_ne_eof h1t) ?_
            intro k hk1 hk2
            have hk : k = s.current_idx := by omega
            subst hk
            exact twoChar_ne_newline hst2
      | none =>
          by_cases hsl : s.source.getD s.current_idx (Char.ofNat 0) = '/'
          · by_cases hnext : s.current_idx + 1 < s.source.length ∧
                s.source.getD (s.current_idx + 1) (Char.ofNat 0) = '/'
            · exact StepSpec_comment s h hsl hnext.1 hnext.2
            · have hno : s.source.length ≤ s.current_idx + 1 ∨
                  s.source.getD (s.current_idx + 1) (Char.ofNat 0) ≠ '/' := by
                by_cases hl2 : s.current_idx + 1 < s.source.length
                · exact Or.inr (fun hx => hnext ⟨hl2, hx⟩)
                · exact Or.inl (by omega)
              refine StepSpec_of_push s TokenType.Slash 1
                (scan_single_slash s h hls hsl hno)
                Nat.one_pos (by omega) (by simp) ?_
              intro k hk1 hk2
              have hk : k = s.current_idx := by omega
              subst hk
              rw [hsl]
              decide
          · by_cases hws : s.source.getD s.current_idx (Char.ofNat 0) = ' ' ∨
                s.source.getD s.current_idx (Char.ofNat 0) = '\r' ∨
                s.source.getD s.current_idx (Char.ofNat 0) = '\t'
            · refine StepSpec_of_skip s (scan_single_ws s h hws) (by omega) ?_
              rcases hws with hx | hx | hx <;> rw [hx] <;> decide
            · by_cases hnlc : s.source.getD s.current_idx (Char.ofNat 0) = '\n'
              · exact StepSpec_newline s h hnlc
              · refine StepSpec_error s h hst ?_
                have hb1 : s.source.getD s.current_idx (Char.ofNat 0) ≠ '!' := by
                  intro hx; rw [hx] at hst2; simp [twoCharTokenType] at hst2
                have hb2 : s.source.getD s.current_idx (Char.ofNat 0) ≠ '=' := by
                  intro hx; rw [hx] at hst2; simp [twoCharTokenType] at hst2
                have hb3 : s.source.getD s.current_idx (Char.ofNat 0) ≠ '<' := by
                  intro hx; rw [hx] at hst2; simp [twoCharTokenType] at hst2
                have hb4 : s.source.getD s.current_idx (Char.ofNat 0) ≠ '>' := by
                  intro hx; rw [hx] at hst2; simp [twoCharTokenType] at hst2
                push_neg at hws
                simp only [List.mem_cons, List.not_mem_nil, or_false, not_or]
                exact ⟨hb1, hb2, hb3, hb4, hsl, hws.1, hws.2.1, hws.2.2, hnlc⟩

/-! ## The main loop invariant -/

lemma scanLoop_spec (fuel : Nat) : ∀ (s : Scanner),
    s.source.length - s.current_idx ≤ fuel →
    s.current_idx ≤ s.source.length →
    s.current_line = 1 + (s.source.take s.current_idx).count '\n' →
    ∃ nts nes,
      (scanLoop fuel s).source = s.source ∧
      (scanLoop fuel s).tokens = s.tokens ++ nts ∧
      (scanLoop fuel s).errors = s.errors ++ nes ∧
      (scanLoop fuel s).current_idx = s.source.length ∧
      s.current_line ≤ (scanLoop fuel s).current_line ∧
      (scanLoop fuel s).current_line = 1 + s.source.count '\n' ∧
      (∀ t ∈ nts, TokOK s.source t ∧ s.current_line ≤ t.line ∧
        t.line ≤ (scanLoop fuel s).current_line) ∧
      nts.Pairwise (fun a b => a.line ≤ b.line) ∧
      (∀ e ∈ nes, e.message = "Unexpected character" ∧ s.current_line ≤ e.line ∧
        e.line ≤ (scanLoop fuel s).current_line) ∧
      nes.Pairwise (fun a b => a.line ≤ b.line) := by
  induction fuel with
  | zero =>
    intro s hfuel hidx hline
    have heq : s.current_idx = s.source.length := by omega
    refine ⟨[], [], rfl, by simp [scanLoop], by simp [scanLoop], by simp [scanLoop]; omega,
      le_refl _, ?_, by simp, by simp, by simp, by simp⟩
    show s.current_line = _
    rw [hline, heq, List.take_length]
  | succ n ih =>
    intro s hfuel hidx hline
    rw [scanLoop]
    by_cases hex : s.exhausted_chars = true
    · rw [if_pos hex]
      have heq : s.current_idx = s.source.length := by
        simp [Scanner.exhausted_chars] at hex
        omega
      refine ⟨[], [], rfl, by simp, by simp, by omega,
        le_refl _, ?_, by simp, by simp, by simp, by simp⟩
      rw [hline, heq, List.take_length]
    · rw [if_neg hex]
      have hexf : s.exhausted_chars = false := by
        simpa using hex
      obtain ⟨nts1, nes1, q1, q2, q3, q4, q5, q6, q7, q8, q9, q10, q11, q12⟩ :=
        step_spec { s with lexeme_start_idx := s.current_idx } hexf rfl
      simp only at q1 q2 q3 q4 q5 q6 q7 q8 q9 q10
      generalize hgen : Scanner.scan_single_token { s with lexeme_start_idx := s.current_idx } = s1
        at q1 q2 q3 q4 q5 q6 q7 q8 q9 q10 ⊢
      obtain ⟨nts2, nes2, r1, r2, r3, r4, r5, r6, r7, r8, r9, r10⟩ :=
        ih s1 (by rw [q1]; omega) (by rw [q1]; exact q5)
          (by rw [q1]; exact q8 hline)
      rw [q1] at r1 r4 r6
      refine ⟨nts1 ++ nts2, nes1 ++ nes2, r1, ?_, ?_, r4, ?_, r6, ?_, ?_, ?_, ?_⟩
      · rw [r2, q2, List.append_assoc]
      · rw [r3, q3, List.append_assoc]
      · exact le_trans q6 r5
      · intro t ht
        rcases List.mem_append.mp ht with ht1 | ht2
        · obtain ⟨he, hl, hx⟩ := q9 t ht1
          refine ⟨⟨he, s.current_idx, s1.current_idx,
            q4, q5, hx, by rw [hl]; exact hline⟩,
            le_of_eq hl.symm, ?_⟩
          rw [hl]
          exact le_trans q6 r5
        · obtain ⟨hok, hl, hx⟩ := r7 t ht2
          rw [q1] at hok
          exact ⟨hok, le_trans q6 hl, hx⟩
      · refine List.pairwise_append.mpr ⟨pairwise_of_length_le_one q11, r8, ?_⟩
        intro a ha b hb
        obtain ⟨_, hla, _⟩ := q9 a ha
        obtain ⟨_, hlb, _⟩ := r7 b hb
        rw [hla]
        exact le_trans q6 hlb
      · intro e he
        rcases List.mem_append.mp he with he1 | he2
        · obtain ⟨hm, hl⟩ := q10 e he1
          exact ⟨hm, le_of_eq hl.symm, by rw [hl]; exact le_trans q6 r5⟩
        · obtain ⟨hm, hl, hx⟩ := r9 e he2
          exact ⟨hm, le_trans q6 hl, hx⟩
      · refine List.pairwise_append.mpr ⟨pairwise_of_length_le_one q12, r10, ?_⟩
        intro a ha b hb
        obtain ⟨_, hla⟩ := q10 a ha
        obtain ⟨_, hlb, _⟩ := r9 b hb
        rw [hla]
        exact le_trans q6 hlb

/-- What one full `scan_tokens` run on a fresh scanner guarantees. -/
lemma scan_tokens_spec (source : String) :
    ∃ nts nes,
      (Scanner.new.scan_tokens source).source = source.data ∧
      (Scanner.new.scan_tokens source).tokens =
        nts ++ [Token.eof (Scanner.new.scan_tokens source).current_line] ∧
      (Scanner.new.scan_tokens source).errors = nes ∧
      (Scanner.new.scan_tokens source).current_idx = source.data.length ∧
      (Scanner.new.scan_tokens source).current_line = 1 + source.data.count '\n' ∧
      (∀ t ∈ nts, TokOK source.data t ∧
        t.line ≤ (Scanner.new.scan_tokens source).current_line) ∧
      nts.Pairwise (fun a b => a.line ≤ b.line) ∧
      (∀ e ∈ nes, e.message = "Unexpected character" ∧
        e.line ≤ (Scanner.new.scan_tokens source).current_line) ∧
      nes.Pairwise (fun a b => a.line ≤ b.line) := by
  obtain ⟨nts, nes, p1, p2, p3, p4, p5, p6, p7, p8, p9, p10⟩ :=
    scanLoop_spec (source.data.length - 0)
      { source := source.data, tokens := [], errors := [], current_line := 1,
        lexeme_start_idx := 0, current_idx := 0 }
      (by simp) (by simp) (by simp)
  have hsteq : Scanner.new.scan_tokens source =
      { scanLoop (source.data.length - 0)
          { source := source.data, tokens := [], errors := [], current_line := 1,
            lexeme_start_idx := 0, current_idx := 0 } with
        tokens := (scanLoop (source.data.length - 0)
          { source := source.data, tokens := [], errors := [], current_line := 1,
            lexeme_start_idx := 0, current_idx := 0 }).tokens ++
          [Token.eof (scanLoop (source.data.length - 0)
            { source := source.data, tokens := [], errors := [], current_line := 1,
              lexeme_start_idx := 0, current_idx := 0 }).current_line] } := rfl
  generalize hgen : scanLoop (source.data.length - 0)
      { source := source.data, tokens := [], errors := [], current_line := 1,
        lexeme_start_idx := 0, current_idx := 0 } = L
    at hsteq p1 p2 p3 p4 p5 p6 p7 p8 p9 p10
  simp only at p1 p2 p3 p4 p5 p6 p7 p8 p9 p10
  refine ⟨nts, nes, by simp [hsteq, p1], ?_, by simp [hsteq]; rw [p3]; simp,
    by simp [hsteq]; rw [p4]; rfl, by simp [hsteq]; exact p6,
    fun t ht => ⟨(p7 t ht).1, by simp [hsteq]; exact (p7 t ht).2.2⟩, p8,
    fun e he => ⟨(p9 e he).1, by simp [hsteq]; exact (p9 e he).2.2⟩, p10⟩
  simp [hsteq]
  rw [p2]
  simp

/-! ## Claim theorems -/

/-- C1 counterexample: on the source from the spec's concrete case, the
scanner does NOT classify `{` and `}` as LeftBrace/RightBrace — the claimed
token-kind sequence is refuted. -/
theorem C1_counterexample :
    ¬ ((Scanner.new.scan_tokens "// comment\n(( )){} // grouping\n>= / // op").tokens.map
        Token.token_type =
      [TokenType.LeftParen, TokenType.LeftParen, TokenType.RightParen, TokenType.RightParen,
       TokenType.LeftBrace, TokenType.RightBrace, TokenType.GreaterEqual, TokenType.Slash,
       TokenType.Eof]) := by
  decide

/-- C1 (amended): scanning `"// comment\n(( )){} // grouping\n>= / // op"`
produces exactly LeftParen, LeftParen, RightParen, RightParen, LeftBracket,
RightBracket (all on line 2), GreaterEqual, Slash (line 3) and Eof (line 3),
with no errors; the characters `{` and `}` are classified as the LeftBracket
and RightBracket token kinds. -/
theorem C1_concrete_scan :
    (Scanner.new.scan_tokens "// comment\n(( )){} // grouping\n>= / // op").tokens =
      [{ token_type := TokenType.LeftParen, lexeme := "(", literal := none, line := 2 },
       { token_type := TokenType.LeftParen, lexeme := "(", literal := none, line := 2 },
       { token_type := TokenType.RightParen, lexeme := ")", literal := none, line := 2 },
       { token_type := TokenType.RightParen, lexeme := ")", literal := none, line := 2 },
       { token_type := TokenType.LeftBracket, lexeme := "\x7b", literal := none, line := 2 },
       { token_type := TokenType.RightBracket, lexeme := "\x7d", literal := none, line := 2 },
       { token_type := TokenType.GreaterEqual, lexeme := ">=", literal := none, line := 3 },
       { token_type := TokenType.Slash, lexeme := "/", literal := none, line := 3 },
       { token_type := TokenType.Eof, lexeme := "", literal := none, line := 3 }] ∧
    (Scanner.new.scan_tokens "// comment\n(( )){} // grouping\n>= / // op").errors = [] :=
  ⟨rfl, rfl⟩

/-- C2: every scan returns a non-empty token sequence whose last element is
the EndOfInput token stamped with the scanner's final line counter, and no
other element is an EndOfInput token. -/
theorem C2_eof_terminator (source : String) :
    (Scanner.new.scan_tokens source).tokens ≠ [] ∧
    (Scanner.new.scan_tokens source).tokens.getLast? =
      some (Token.eof (Scanner.new.scan_tokens source).current_line) ∧
    ∀ t ∈ (Scanner.new.scan_tokens source).tokens.dropLast,
      t.token_type ≠ TokenType.Eof := by
  obtain ⟨nts, nes, p1, p2, p3, p4, p5, p6, p7, p8, p9⟩ := scan_tokens_spec source
  refine ⟨?_, ?_, ?_⟩
  · rw [p2]; simp
  · rw [p2]; exact List.getLast?_concat _
  · rw [p2, List.dropLast_concat]
    intro t ht
    exact (p6 t ht).1.1

theorem C2_eof_terminator_witness :
    ({ token_type := TokenType.LeftParen, lexeme := "(", literal := none,
       line := 1 } : Token).token_type ≠ TokenType.Eof :=
  (C2_eof_terminator "(").2.2 _ (List.mem_cons_self _ _)

/-- C3: when the scanner consumes `!`, `=`, `<` or `>` with the lexeme start
at the cursor, it emits the two-character operator and advances two places
exactly when the following character exists and is `=`; otherwise it emits
the one-character operator and advances one place; and when the consumed
character was the last one, the lookahead `match_advance` reports no match
and leaves the state unchanged. -/
theorem C3_operator_lookahead (s : Scanner) (tt2 tt1 : TokenType)
    (h : s.exhausted_chars = false)
    (hls : s.lexeme_start_idx = s.current_idx)
    (h2 : twoCharTokenType (s.source.getD s.current_idx (Char.ofNat 0)) = some tt2)
    (h1 : oneCharTokenType (s.source.getD s.current_idx (Char.ofNat 0)) = some tt1) :
    ((s.current_idx + 1 < s.source.length ∧
        s.source.getD (s.current_idx + 1) (Char.ofNat 0) = '=') →
      Scanner.scan_single_token s =
        { s with current_idx := s.current_idx + 2,
                 tokens := s.tokens ++
                   [{ token_type := tt2,
                      lexeme := ((s.source.drop s.current_idx).take 2).asString,
                      literal := none, line := s.current_line }] }) ∧
    (¬(s.current_idx + 1 < s.source.length ∧
        s.source.getD (s.current_idx + 1) (Char.ofNat 0) = '=') →
      Scanner.scan_single_token s =
        { s with current_idx := s.current_idx + 1,
                 tokens := s.tokens ++
                   [{ token_type := tt1,
                      lexeme := ((s.source.drop s.current_idx).take 1).asString,
                      literal := none, line := s.current_line }] }) ∧
    (s.current_idx + 1 = s.source.length →
      ({ s with current_idx := s.current_idx + 1 } : Scanner).match_advance '=' =
        (false, { s with current_idx := s.current_idx + 1 })) := by
  refine ⟨fun hx => scan_single_op2 s tt2 h hls h2 hx.1 hx.2, fun hx => ?_, fun hx => ?_⟩
  · refine scan_single_op1 s tt1 h hls h1 ?_
    by_cases hl2 : s.current_idx + 1 < s.source.length
    · exact Or.inr (fun hy => hx ⟨hl2, hy⟩)
    · exact Or.inl (by omega)
  · exact match_advance_no _ '=' (Or.inl (by simp; omega))

theorem C3_operator_lookahead_witness :
    Scanner.scan_single_token
      { source := "<=".data, tokens := [], errors := [], current_line := 1,
        lexeme_start_idx := 0, current_idx := 0 } =
      { source := "<=".data,
        tokens := [{ token_type := TokenType.LessEqual, lexeme := "<=",
                     literal := none, line := 1 }],
        errors := [], current_line := 1, lexeme_start_idx := 0, current_idx := 2 } :=
  (C3_operator_lookahead
    { source := "<=".data, tokens := [], errors := [], current_line := 1,
      lexeme_start_idx := 0, current_idx := 0 }
    TokenType.LessEqual TokenType.Less
    (by decide) rfl (by decide) (by decide)).1 ⟨by decide, by decide⟩

/-- C4: when the scanner consumes `/` immediately followed by `/`, it
consumes everything up to but not including the next newline (or to end of
input), emitting no token and no error regardless of the comment's contents;
a `/` not followed by `/` emits a Slash token. -/
theorem C4_comment_handling (s : Scanner)
    (h : s.exhausted_chars = false)
    (hls : s.lexeme_start_idx = s.current_idx)
    (hchar : s.source.getD s.current_idx (Char.ofNat 0) = '/') :
    ((s.current_idx + 1 < s.source.length ∧
        s.source.getD (s.current_idx + 1) (Char.ofNat 0) = '/') →
      (Scanner.scan_single_token s).tokens = s.tokens ∧
      (Scanner.scan_single_token s).errors = s.errors ∧
      s.current_idx + 2 ≤ (Scanner.scan_single_token s).current_idx ∧
      (Scanner.scan_single_token s).current_idx ≤ s.source.length ∧
      ((Scanner.scan_single_token s).current_idx = s.source.length ∨
        s.source.getD (Scanner.scan_single_token s).current_idx (Char.ofNat 0) = '\n') ∧
      (∀ k, s.current_idx + 2 ≤ k → k < (Scanner.scan_single_token s).current_idx →
        s.source.getD k (Char.ofNat 0) ≠ '\n')) ∧
    (¬(s.current_idx + 1 < s.source.length ∧
        s.source.getD (s.current_idx + 1) (Char.ofNat 0) = '/') →
      Scanner.scan_single_token s =
        { s with current_idx := s.current_idx + 1,
                 tokens := s.tokens ++
                   [{ token_type := TokenType.Slash,
                      lexeme := ((s.source.drop s.current_idx).take 1).asString,
                      literal := none, line := s.current_line }] }) := by
  constructor
  · intro hx
    have hstep := scan_single_comment s h hchar hx.1 hx.2
    obtain ⟨p1, p2, p3, p4, p5, p6, p7⟩ :=
      skipComment_preserves (s.source.length - (s.current_idx + 1 + 1))
        { s with current_idx := s.current_idx + 1 + 1 }
    obtain ⟨e1, e2⟩ :=
      skipComment_exact (s.source.length - (s.current_idx + 1 + 1))
        { s with current_idx := s.current_idx + 1 + 1 }
        (by simp) (by simp; omega)
    simp only at p1 p2 p3 p4 p5 p6 e1 e2
    have hp7 := p7 (by simp; omega)
    simp only at hp7
    refine ⟨by rw [hstep]; exact p2, by rw [hstep]; exact p3,
      by rw [hstep]; omega, by rw [hstep]; exact hp7, ?_, ?_⟩
    · rw [hstep]
      rcases e1 with h1 | h2
      · exact Or.inl h1
      · exact Or.inr h2.2
    · intro k hk1 hk2
      rw [hstep] at hk2
      exact e2 k (by omega) hk2
  · intro hx
    refine scan_single_slash s h hls hchar ?_
    by_cases hl2 : s.current_idx + 1 < s.source.length
    · exact Or.inr (fun hy => hx ⟨hl2, hy⟩)
    · exact Or.inl (by omega)

theorem C4_comment_handling_witness :
    (Scanner.scan_single_token
      { source := "//a\n(".data, tokens := [], errors := [], current_line := 1,
        lexeme_start_idx := 0, current_idx := 0 }).tokens = [] ∧
    (Scanner.scan_single_token
      { source := "//a\n(".data, tokens := [], errors := [], current_line := 1,
        lexeme_start_idx := 0, current_idx := 0 }).errors = [] ∧
    2 ≤ (Scanner.scan_single_token
      { source := "//a\n(".data, tokens := [], errors := [], current_line := 1,
        lexeme_start_idx := 0, current_idx := 0 }).current_idx := by
  have hc := (C4_comment_handling
    { source := "//a\n(".data, tokens := [], errors := [], current_line := 1,
      lexeme_start_idx := 0, current_idx := 0 }
    (by decide) rfl (by decide)).1 ⟨by decide, by decide⟩
  exact ⟨hc.1, hc.2.1, hc.2.2.1⟩

/-- C5: every non-EndOfInput token of a scan is stamped with line 1 plus the
number of newline characters strictly before the token's first character
(the offset at which its lexeme re-slices the source). -/
theorem C5_line_accounting (source : String) (t : Token)
    (ht : t ∈ (Scanner.new.scan_tokens source).tokens)
    (hne : t.token_type ≠ TokenType.Eof) :
    ∃ i, t.line = 1 + (source.data.take i).count '\n' ∧
      ∃ j, i < j ∧ j ≤ source.data.length ∧
        t.lexeme = ((source.data.drop i).take (j - i)).asString := by
  obtain ⟨nts, nes, p1, p2, p3, p4, p5, p6, p7, p8, p9⟩ := scan_tokens_spec source
  rw [p2] at ht
  rcases List.mem_append.mp ht with h1 | h2
  · obtain ⟨⟨_, i, j, hij, hjl, hlex, hline⟩, _⟩ := p6 t h1
    exact ⟨i, hline, j, hij, hjl, hlex⟩
  · simp only [List.mem_singleton] at h2
    subst h2
    exact absurd rfl hne

theorem C5_line_accounting_witness :
    ∃ i, (Token.mk TokenType.LeftParen "(" none 1).line = 1 + ("(".data.take i).count '\n' ∧
      ∃ j, i < j ∧ j ≤ "(".data.length ∧
        (Token.mk TokenType.LeftParen "(" none 1).lexeme =
          (("(".data.drop i).take (j - i)).asString :=
  C5_line_accounting "(" _ (List.mem_cons_self _ _) (by decide)

/-- C6: every non-EndOfInput token's lexeme is a non-empty re-slice of the
original source at the offsets consumed to recognize it. -/
theorem C6_lexeme_roundtrip (source : String) (t : Token)
    (ht : t ∈ (Scanner.new.scan_tokens source).tokens)
    (hne : t.token_type ≠ TokenType.Eof) :
    ∃ i j, i < j ∧ j ≤ source.data.length ∧
      t.lexeme = ((source.data.drop i).take (j - i)).asString ∧
      t.lexeme ≠ "" := by
  obtain ⟨nts, nes, p1, p2, p3, p4, p5, p6, p7, p8, p9⟩ := scan_tokens_spec source
  rw [p2] at ht
  rcases List.mem_append.mp ht with h1 | h2
  · obtain ⟨⟨_, i, j, hij, hjl, hlex, hline⟩, _⟩ := p6 t h1
    refine ⟨i, j, hij, hjl, hlex, ?_⟩
    rw [hlex]
    apply asString_ne_empty
    apply List.length_pos.mp
    rw [List.length_take, List.length_drop, Nat.lt_min]
    omega
  · simp only [List.mem_singleton] at h2
    subst h2
    exact absurd rfl hne

theorem C6_lexeme_roundtrip_witness :
    ∃ i j, i < j ∧ j ≤ "(".data.length ∧
      (Token.mk TokenType.LeftParen "(" none 1).lexeme =
        (("(".data.drop i).take (j - i)).asString ∧
      (Token.mk TokenType.LeftParen "(" none 1).lexeme ≠ "" :=
  C6_lexeme_roundtrip "(" _ (List.mem_cons_self _ _) (by decide)

/-- C7: an unclassifiable character produces exactly one "Unexpected
character" error at the current line and scanning continues at the next
character; the pass always consumes the whole input; and scanning `"@"`
yields only the Eof token for line 1 plus exactly that one error. -/
theorem C7_error_recovery :
    (∀ s : Scanner, s.exhausted_chars = false →
      simpleTokenType (s.source.getD s.current_idx (Char.ofNat 0)) = none →
      s.source.getD s.current_idx (Char.ofNat 0) ∉
        ['!', '=', '<', '>', '/', ' ', '\r', '\t', '\n'] →
      Scanner.scan_single_token s =
        { s with current_idx := s.current_idx + 1,
                 errors := s.errors ++
                   [{ message := "Unexpected character", line := s.current_line }] }) ∧
    (∀ source : String,
      (Scanner.new.scan_tokens source).current_idx = source.data.length) ∧
    (Scanner.new.scan_tokens "@").tokens = [Token.eof 1] ∧
    (Scanner.new.scan_tokens "@").errors =
      [{ message := "Unexpected character", line := 1 }] := by
  refine ⟨fun s h hsimple hother => scan_single_error s h hsimple hother, ?_, rfl, rfl⟩
  intro source
  obtain ⟨nts, nes, p1, p2, p3, p4, p5, p6, p7, p8, p9⟩ := scan_tokens_spec source
  exact p4

theorem C7_error_recovery_witness :
    Scanner.scan_single_token
      { source := "@(".data, tokens := [], errors := [], current_line := 1,
        lexeme_start_idx := 0, current_idx := 0 } =
      { source := "@(".data, tokens := [],
        errors := [{ message := "Unexpected character", line := 1 }],
        current_line := 1, lexeme_start_idx := 0, current_idx := 1 } :=
  C7_error_recovery.1
    { source := "@(".data, tokens := [], errors := [], current_line := 1,
      lexeme_start_idx := 0, current_idx := 0 }
    (by decide) (by decide) (by decide)

/-- C8: `get_tokens` returns the accumulated error sequence exactly when at
least one error was recorded, and the token sequence otherwise. -/
theorem C8_get_tokens_result (source : String) :
    ((Scanner.new.scan_tokens source).errors ≠ [] →
      get_tokens source = Except.error (Scanner.new.scan_tokens source).errors) ∧
    ((Scanner.new.scan_tokens source).errors = [] →
      get_tokens source = Except.ok (Scanner.new.scan_tokens source).tokens) := by
  constructor
  · intro hne
    have hpos : 0 < (Scanner.new.scan_tokens source).errors.length :=
      List.length_pos.mpr hne
    simp [get_tokens, Scanner.has_errors, hpos]
  · intro heq
    simp [get_tokens, Scanner.has_errors, heq]

theorem C8_get_tokens_result_witness :
    get_tokens "@" = Except.error [{ message := "Unexpected character", line := 1 }] ∧
    get_tokens "" = Except.ok [Token.eof 1] :=
  ⟨(C8_get_tokens_result "@").1 (by decide), (C8_get_tokens_result "").2 rfl⟩

/-- C9: the line counter starts at 1 and never decreases — one scan step
leaves it unchanged on a non-newline character and increments it by exactly
one on a newline — so the line fields of both the token sequence and the
error sequence are monotonically non-decreasing in emission order. -/
theorem C9_line_monotonicity :
    Scanner.new.current_line = 1 ∧
    (∀ s : Scanner, s.exhausted_chars = false →
      s.lexeme_start_idx = s.current_idx →
      ((Scanner.scan_single_token s).current_line = s.current_line ∧
          s.source.getD s.current_idx (Char.ofNat 0) ≠ '\n' ∨
        (Scanner.scan_single_token s).current_line = s.current_line + 1 ∧
          s.source.getD s.current_idx (Char.ofNat 0) = '\n')) ∧
    (∀ source : String,
      ((Scanner.new.scan_tokens source).tokens.Pairwise fun a b => a.line ≤ b.line) ∧
      ((Scanner.new.scan_tokens source).errors.Pairwise fun a b => a.line ≤ b.line)) := by
  refine ⟨rfl, ?_, ?_⟩
  · intro s h hls
    obtain ⟨nts, nes, q1, q2, q3, q4, q5, q6, q7, q8, q9, q10, q11, q12⟩ :=
      step_spec s h hls
    exact q7
  · intro source
    obtain ⟨nts, nes, p1, p2, p3, p4, p5, p6, p7, p8, p9⟩ := scan_tokens_spec source
    constructor
    · rw [p2]
      refine List.pairwise_append.mpr ⟨p7, List.pairwise_singleton _ _, ?_⟩
      intro a ha b hb
      simp only [List.mem_singleton] at hb
      subst hb
      exact (p6 a ha).2
    · rw [p3]
      exact p9

theorem C9_line_monotonicity_witness :
    ((Scanner.scan_single_token
        { source := ['\n'], tokens := [], errors := [], current_line := 1,
          lexeme_start_idx := 0, current_idx := 0 }).current_line = 1 ∧
        (['\n'] : List Char).getD 0 (Char.ofNat 0) ≠ '\n' ∨
      (Scanner.scan_single_token
        { source := ['\n'], tokens := [], errors := [], current_line := 1,
          lexeme_start_idx := 0, current_idx := 0 }).current_line = 1 + 1 ∧
        (['\n'] : List Char).getD 0 (Char.ofNat 0) = '\n') ∧
    ((Scanner.new.scan_tokens "@\n@").errors.Pairwise fun a b => a.line ≤ b.line) :=
  ⟨C9_line_monotonicity.2.1
    { source := ['\n'], tokens := [], errors := [], current_line := 1,
      lexeme_start_idx := 0, current_idx := 0 } (by decide) rfl,
   (C9_line_monotonicity.2.2 "@\n@").2⟩

/-- C10: scanning the empty string produces exactly the EndOfInput token
with empty lexeme and line 1, no errors, and `get_tokens` returns `Ok` of
that one-element sequence. -/
theorem C10_empty_source :
    get_tokens "" = Except.ok
      [{ token_type := TokenType.Eof, lexeme := "", literal := none, line := 1 }] ∧
    (Scanner.new.scan_tokens "").tokens =
      [{ token_type := TokenType.Eof, lexeme := "", literal := none, line := 1 }] ∧
    (Scanner.new.scan_tokens "").errors = [] :=
  ⟨rfl, rfl, rfl⟩

end LoxRs
